import Mathlib

/-!
Verification of the SafetyTaxonomy visualization code.

Shallow embedding of the functions in
`src/client/src/lib/csv-parser.ts`, `src/client/src/lib/taxonomy-utils.ts`
and `src/client/src/components/visualization/sunburst-chart.tsx`.

Conventions:
* JavaScript strings are modelled as `List Char` (for the CSV parser) or
  `String` (for the schema-level data); `String.prototype.toLowerCase`,
  `includes`, `trim` are modelled for the ASCII/Unicode subsets the data uses.
* JavaScript numbers are modelled as `ℚ` (exact arithmetic).  The single place
  where the code can produce `NaN` (division by a zero denominator) is
  modelled with `Option`: `none` stands for `NaN`.
* Angles are measured in units of π (so the full circle `2 * Math.PI` is `2`,
  and the zoomed span `Math.PI * 1.6` is `8/5`); every angle produced by the
  layout code is a rational multiple of π, so this is exact.
-/

namespace Csv

/-- Model of `parseCSVLine` (csv-parser.ts lines 108-128).  The JS loop keeps
a `current` field accumulator and an `inQuotes` flag: a `"` toggles the flag
and is consumed, a `,` outside quotes terminates the current field, any other
character is appended to the current field; the final `current` is always
pushed.  The accumulating recursion below is the loop, one character at a
time. -/
def parseCSVLineAux : List Char → List Char → Bool → List (List Char)
  | [], current, _ => [current]
  | c :: rest, current, inQuotes =>
    if c = '"' then
      parseCSVLineAux rest current (!inQuotes)
    else if c = ',' ∧ inQuotes = false then
      current :: parseCSVLineAux rest [] false
    else
      parseCSVLineAux rest (current ++ [c]) inQuotes

/-- `parseCSVLine(line)`: `result = []; current = ''; inQuotes = false`. -/
def parseCSVLine (line : List Char) : List (List Char) :=
  parseCSVLineAux line [] false

/-- Spec-side count: the number of comma characters of `line` that occur
outside double-quoted regions, where position `i` is outside a quoted region
iff the number of `"` characters strictly before `i` is even.  (This is the
claim's own notion, written positionally and independently of the scanner.) -/
def unquotedCommaCount (line : List Char) : ℕ :=
  ((List.range line.length).filter
    (fun i => line.getD i ' ' = ',' ∧ ((line.take i).count '"') % 2 = 0)).length

example : parseCSVLine (String.toList "a,\"b,c\",d") =
    [String.toList "a", String.toList "b,c", String.toList "d"] := by decide
example : unquotedCommaCount (String.toList "a,\"b,c\",d") = 2 := by decide
example : parseCSVLine (String.toList "") = [[]] := by decide

/-- Positional comma count relative to a starting quote parity: position `i`
is counted when it holds a comma and the parity of the number of `"` before it
agrees with `startEven`. `unquotedCommaCount line = commasAt line true`. -/
def commasAt (line : List Char) (startEven : Bool) : ℕ :=
  ((List.range line.length).filter
    (fun i => line.getD i ' ' = ',' ∧
      ((((line.take i).count '"') % 2 = 0) ↔ startEven = true))).length

theorem unquotedCommaCount_eq_commasAt (line : List Char) :
    unquotedCommaCount line = commasAt line true := by
  unfold unquotedCommaCount commasAt
  simp

theorem commasAt_cons (c : Char) (rest : List Char) (b : Bool) :
    commasAt (c :: rest) b =
      (if c = ',' ∧ b = true then 1 else 0) +
        commasAt rest (if c = '"' then !b else b) := by
  unfold commasAt
  rw [List.length_cons, List.range_succ_eq_map, List.filter_cons]
  have htail :
      List.filter (fun i => decide ((c :: rest).getD i ' ' = ',' ∧
          ((((c :: rest).take i).count '"') % 2 = 0 ↔ b = true)))
        ((List.range rest.length).map Nat.succ)
      = ((List.range rest.length).filter (fun i => decide (rest.getD i ' ' = ',' ∧
          (((rest.take i).count '"') % 2 = 0 ↔
            (if c = '"' then !b else b) = true)))).map Nat.succ := by
    rw [List.filter_map]
    congr 1
    apply List.filter_congr
    intro i _
    simp only [Function.comp_apply, List.getD_cons_succ, List.take_succ_cons,
      List.count_cons, decide_eq_decide]
    refine and_congr_right fun _ => ?_
    by_cases hc : c = '"'
    · subst hc
      simp only [beq_self_eq_true, if_pos rfl]
      cases b <;> simp <;> omega
    · have hbeq : (c == '"') = false := beq_eq_false_iff_ne.mpr hc
      simp [hbeq, hc]
  rw [htail]
  have hhead : (decide ((c :: rest).getD 0 ' ' = ',' ∧
      ((((c :: rest).take 0).count '"') % 2 = 0 ↔ b = true))) =
      decide (c = ',' ∧ b = true) := by
    simp [List.getD_cons_zero]
  rw [hhead]
  by_cases hcb : c = ',' ∧ b = true
  · rw [if_pos (decide_eq_true hcb), if_pos hcb]
    simp [Nat.add_comm]
  · rw [if_neg (by simpa using hcb), if_neg hcb]
    simp

/-- Scanner-style count of field-separating commas, mirroring the control flow
of `parseCSVLineAux` (`inQ` is the `inQuotes` flag). -/
def scanCount : List Char → Bool → ℕ
  | [], _ => 0
  | c :: rest, inQ =>
    if c = '"' then scanCount rest (!inQ)
    else if c = ',' ∧ inQ = false then scanCount rest false + 1
    else scanCount rest inQ

theorem scanCount_eq_commasAt (line : List Char) :
    ∀ inQ : Bool, scanCount line inQ = commasAt line (!inQ) := by
  induction line with
  | nil =>
    intro inQ
    simp [scanCount, commasAt]
  | cons c rest ih =>
    intro inQ
    rw [commasAt_cons]
    unfold scanCount
    by_cases hc : c = '"'
    · rw [if_pos hc, if_pos hc, ih]
      have : ¬(c = ',' ∧ (!inQ) = true) := by
        rintro ⟨h, -⟩
        rw [hc] at h
        exact absurd h (by decide)
      rw [if_neg this]
      simp
    · rw [if_neg hc, if_neg hc]
      by_cases hcm : c = ',' ∧ inQ = false
      · have : c = ',' ∧ (!inQ) = true := ⟨hcm.1, by rw [hcm.2]; rfl⟩
        rw [if_pos hcm, if_pos this, ih]
        have hq : inQ = false := hcm.2
        rw [hq]
        omega
      · have : ¬(c = ',' ∧ (!inQ) = true) := by
          rintro ⟨h1, h2⟩
          exact hcm ⟨h1, by cases inQ <;> simp_all⟩
        rw [if_neg hcm, if_neg this, ih]
        simp

theorem parseCSVLineAux_length (line : List Char) :
    ∀ current inQ, (parseCSVLineAux line current inQ).length =
      1 + scanCount line inQ := by
  induction line with
  | nil => intro current inQ; simp [parseCSVLineAux, scanCount]
  | cons c rest ih =>
    intro current inQ
    unfold parseCSVLineAux scanCount
    by_cases hc : c = '"'
    · rw [if_pos hc, if_pos hc, ih]
    · rw [if_neg hc, if_neg hc]
      by_cases hcm : c = ',' ∧ inQ = false
      · rw [if_pos hcm, if_pos hcm, List.length_cons, ih]
        omega
      · rw [if_neg hcm, if_neg hcm, ih]

theorem parseCSVLineAux_no_quote (line : List Char) :
    ∀ current inQ, ('"' ∉ current) →
      ∀ f ∈ parseCSVLineAux line current inQ, '"' ∉ f := by
  induction line with
  | nil =>
    intro current inQ hcur f hf
    simp only [parseCSVLineAux, List.mem_singleton] at hf
    rw [hf]; exact hcur
  | cons c rest ih =>
    intro current inQ hcur f hf
    unfold parseCSVLineAux at hf
    by_cases hc : c = '"'
    · rw [if_pos hc] at hf
      exact ih current (!inQ) hcur f hf
    · rw [if_neg hc] at hf
      by_cases hcm : c = ',' ∧ inQ = false
      · rw [if_pos hcm] at hf
        rcases List.mem_cons.mp hf with h | h
        · rw [h]; exact hcur
        · exact ih [] false (by simp) f h
      · rw [if_neg hcm] at hf
        refine ih (current ++ [c]) inQ ?_ f hf
        intro hmem
        rcases List.mem_append.mp hmem with h | h
        · exact hcur h
        · simp only [List.mem_singleton] at h
          exact hc h.symm

/-- Claim C10 (implicit CSV line splitting): `parseCSVLine` is total (it is a
total Lean function),
and for every input line it returns a non-empty list of fields whose length is
one plus the number of comma characters occurring outside double-quoted
regions of the line (a position is outside a quoted region iff an even number
of `"` characters precede it), and no returned field contains a double-quote
character. -/
theorem parseCSVLine_spec (line : List Char) :
    (parseCSVLine line).length = 1 + unquotedCommaCount line ∧
    parseCSVLine line ≠ [] ∧
    ∀ f ∈ parseCSVLine line, '"' ∉ f := by
  refine ⟨?_, ?_, ?_⟩
  · rw [parseCSVLine, parseCSVLineAux_length, scanCount_eq_commasAt,
      unquotedCommaCount_eq_commasAt]
    rfl
  · rw [parseCSVLine]
    have h := parseCSVLineAux_length line [] false
    intro hnil
    rw [hnil] at h
    simp only [List.length_nil] at h
    omega
  · exact parseCSVLineAux_no_quote line [] false (by simp)

/-- Closed witness for C10 on a concrete line containing a quoted field. -/
theorem parseCSVLine_spec_witness :
    (parseCSVLine (String.toList "a,\"b,c\",d")).length =
        1 + unquotedCommaCount (String.toList "a,\"b,c\",d") ∧
      '"' ∉ (parseCSVLine (String.toList "a,\"b,c\",d")).getD 1 [] := by
  have h := parseCSVLine_spec (String.toList "a,\"b,c\",d")
  refine ⟨h.1, ?_⟩
  have hmem : (parseCSVLine (String.toList "a,\"b,c\",d")).getD 1 [] ∈
      parseCSVLine (String.toList "a,\"b,c\",d") := by decide
  exact h.2.2 _ hmem

/-! The full CSV parser `parseTaxonomyCSV` (csv-parser.ts lines 13-106). -/

/-- Framework enumeration of `@shared/schema` (`frameworkSchema`). -/
inductive Framework where
  | OWASP
  | NIST
  | EUAIAct
  | USEO14110
  | UKAIWhitepaper
deriving DecidableEq

/-- Model of JS `needle.isPrefix-like` helper: `hay` starts with `needle`. -/
def leadsWith : List Char → List Char → Bool
  | [], _ => true
  | _ :: _, [] => false
  | a :: as, b :: bs => a == b && leadsWith as bs

/-- Model of JS `hay.includes(needle)`: `needle` occurs contiguously in
`hay` (the empty needle always occurs, as in JS). -/
def occursIn : List Char → List Char → Bool
  | needle, [] => leadsWith needle []
  | needle, b :: bs => leadsWith needle (b :: bs) || occursIn needle bs

/-- Model of JS `String.prototype.trim` (strip whitespace at both ends). -/
def jsTrim (s : List Char) : List Char :=
  (((s.dropWhile Char.isWhitespace).reverse).dropWhile Char.isWhitespace).reverse

/-- Model of JS `str.split(sep)` for a one-character separator; accumulating
recursion like `parseCSVLineAux`. -/
def splitCharAux (sep : Char) : List Char → List Char → List (List Char)
  | [], cur => [cur]
  | c :: rest, cur =>
    if c = sep then cur :: splitCharAux sep rest []
    else splitCharAux sep rest (cur ++ [c])

def splitChar (sep : Char) (s : List Char) : List (List Char) :=
  splitCharAux sep s []

/-- Model of JS `Math.round` on the exact rational value: round half toward
positive infinity, `Math.round(x) = ⌊x + 1/2⌋`.  `Rat.floor` is used so the
definition evaluates by kernel reduction; `jsRound_eq` relates it to `⌊·⌋`. -/
def jsRound (q : ℚ) : ℤ := Rat.floor (q + 1 / 2)

theorem jsRound_eq (q : ℚ) : jsRound q = ⌊q + 1 / 2⌋ := by
  rw [jsRound, Rat.floor_def', ← Rat.floor_def]

/-- Model of `Math.round((supported / total) * 100)`.  When `total = 0` the JS
expression is `0 / 0 = NaN` (every reachable zero-denominator case has a zero
numerator) and `Math.round(NaN)` is `NaN`; `none` models `NaN`. -/
def pct (supported total : ℕ) : Option ℤ :=
  if total = 0 then none
  else some (jsRound ((supported : ℚ) / (total : ℚ) * 100))

/-- Parsed item record (csv-parser.ts lines 47-53).  The source field
`example` is called `exampleText` here because `example` is a Lean keyword. -/
structure TaxonomyItem where
  id : List Char
  l1Category : List Char
  l2Category : List Char
  exampleText : List Char
  frameworks : List Framework
deriving DecidableEq

structure TaxonomyCategory where
  name : List Char
  color : List Char
  subcategories : List TaxonomyItem
  frameworkCoverage : Framework → Option ℤ

structure TaxonomyData where
  categories : List TaxonomyCategory
  totalItems : ℕ
  overallCoverage : Framework → Option ℤ

/-- The `✔️` sentinel checked by `columns[col]?.includes('✔️')`. -/
def checkMark : List Char := String.toList "✔️"

/-- The `frameworkColumns` table (csv-parser.ts lines 33-39). -/
def frameworkColumns : List (ℕ × Framework) :=
  [(4, .OWASP), (5, .NIST), (6, .EUAIAct), (7, .USEO14110), (8, .UKAIWhitepaper)]

def allFrameworks : List Framework :=
  [.OWASP, .NIST, .EUAIAct, .USEO14110, .UKAIWhitepaper]

/-- `frameworkColumns.forEach(...)` pushing the matching names, in order. -/
def rowFrameworks (columns : List (List Char)) : List Framework :=
  frameworkColumns.filterMap fun p =>
    if occursIn checkMark (columns.getD p.1 []) then some p.2 else none

/-- The regex replace `.replace(/[^a-zA-Z0-9]/g, '-')`. -/
def sanitizeChar (c : Char) : Char :=
  if ('a' ≤ c ∧ c ≤ 'z') ∨ ('A' ≤ c ∧ c ≤ 'Z') ∨ ('0' ≤ c ∧ c ≤ '9') then c
  else '-'

def sanitize (s : List Char) : List Char := s.map sanitizeChar

/-- One iteration of the row loop (csv-parser.ts lines 18-54): trim the line,
skip if blank, split into columns, skip if fewer than 10 columns, read and
trim columns 0 (L1), 1 (L2) and 3 (example), skip if any is empty, otherwise
build the item.  The JS loop conditionally pushing onto `items` is the
`filterMap` of this function over the lines after the header. -/
def parseRow (rawLine : List Char) : Option TaxonomyItem :=
  let line := jsTrim rawLine
  if line = [] then none
  else
    let columns := parseCSVLine line
    if columns.length < 10 then none
    else
      let l1Category := jsTrim (columns.getD 0 [])
      let l2Category := jsTrim (columns.getD 1 [])
      let exampleText := jsTrim (columns.getD 3 [])
      if l1Category = [] ∨ l2Category = [] ∨ exampleText = [] then none
      else some
        { id := sanitize (l1Category ++ '-' :: l2Category)
          l1Category := l1Category
          l2Category := l2Category
          exampleText := exampleText
          frameworks := rowFrameworks columns }

def parseItems (csvContent : List Char) : List TaxonomyItem :=
  ((splitChar '\n' csvContent).drop 1).filterMap parseRow

/-- One step of the JS `Map`-based grouping (csv-parser.ts lines 58-63): if a
group with the item's `l1Category` key exists, append the item to it,
otherwise add a fresh group at the end (JS `Map` preserves insertion order). -/
def insertItem (acc : List (List Char × List TaxonomyItem))
    (it : TaxonomyItem) : List (List Char × List TaxonomyItem) :=
  if acc.any fun g => g.1 = it.l1Category then
    acc.map fun g =>
      if g.1 = it.l1Category then (g.1, g.2 ++ [it]) else g
  else acc ++ [(it.l1Category, [it])]

/-- The grouping by `l1Category` (csv-parser.ts lines 57-63). -/
def groupByL1 (items : List TaxonomyItem) :
    List (List Char × List TaxonomyItem) :=
  items.foldl insertItem []

/-- The `CATEGORY_COLORS` lookup with its default (csv-parser.ts line 89). -/
def categoryColor (nm : List Char) : List Char :=
  if nm = String.toList "Fairness, Bias & Non-Discrimination" then
    String.toList "hsl(0, 84%, 60%)"
  else if nm = String.toList "Governance & Oversight" then
    String.toList "hsl(262, 83%, 58%)"
  else if nm = String.toList "Harmful Content & Misuse" then
    String.toList "hsl(0, 76%, 50%)"
  else if nm = String.toList "Misinformation & Factuality" then
    String.toList "hsl(43, 96%, 56%)"
  else if nm = String.toList "Regulatory & Compliance" then
    String.toList "hsl(158, 64%, 52%)"
  else if nm = String.toList "Security, Privacy & Data Protection" then
    String.toList "hsl(221, 83%, 53%)"
  else if nm = String.toList "Societal, Ethics & Long-Term Risks" then
    String.toList "hsl(256, 65%, 58%)"
  else String.toList "hsl(200, 50%, 50%)"

/-- `subcategories.filter(item => item.frameworks.includes(framework)).length`. -/
def supportedCount (items : List TaxonomyItem) (fw : Framework) : ℕ :=
  (items.filter fun it => fw ∈ it.frameworks).length

/-- One entry of the `categoryMap.forEach` (csv-parser.ts lines 75-93). -/
def mkCategory (g : List Char × List TaxonomyItem) : TaxonomyCategory :=
  { name := g.1
    color := categoryColor g.1
    subcategories := g.2
    frameworkCoverage := fun fw => pct (supportedCount g.2 fw) g.2.length }

/-- `parseTaxonomyCSV` (csv-parser.ts lines 13-106).  The overall coverage
accumulates each group's supported count and divides by `totalItems` at the
end. -/
def parseTaxonomyCSV (csvContent : List Char) : TaxonomyData :=
  let items := parseItems csvContent
  let groups := groupByL1 items
  { categories := groups.map mkCategory
    totalItems := items.length
    overallCoverage := fun fw =>
      pct (groups.foldl (fun acc g => acc + supportedCount g.2 fw) 0)
        items.length }

example :
    (parseTaxonomyCSV (String.toList "h\nA,B,x,Ex,✔️,,,,,")).totalItems = 1 := by
  decide
example :
    ((parseTaxonomyCSV (String.toList "h\nA,B,x,Ex,✔️,,,,,")).categories.map
      fun c => c.subcategories.map (·.id)) =
    [[String.toList "A-B"]] := by decide
/-- Closed-form evaluation of `pct` by integer division,
`Math.round((s/n)*100) = (200*s + n) / (2*n)` for `n ≠ 0`; this lets concrete
coverage values be checked by kernel computation (ℚ field operations do not
kernel-reduce). -/
theorem pct_eval (s n : ℕ) (hn : n ≠ 0) :
    pct s n = some (((200 * s + n : ℕ) : ℤ) / ((2 * n : ℕ) : ℤ)) := by
  rw [pct, if_neg hn, jsRound_eq]
  congr 1
  have h1 : ((s : ℚ) / (n : ℚ) * 100 + 1 / 2) =
      (((200 * s + n : ℕ) : ℤ) : ℚ) / ((2 * n : ℕ) : ℚ) := by
    have hn' : (n : ℚ) ≠ 0 := Nat.cast_ne_zero.mpr hn
    field_simp
    ring
  rw [h1, Rat.floor_intCast_div_natCast]

/-- Sample input: header plus one complete row with an OWASP check mark. -/
def sampleCsv : List Char := String.toList "h\nA,B,x,Ex,✔️,,,,,"

example : (parseTaxonomyCSV sampleCsv).overallCoverage
    Framework.OWASP = some 100 := by
  show pct ((groupByL1 (parseItems sampleCsv)).foldl
    (fun acc g => acc + supportedCount g.2 Framework.OWASP) 0)
    (parseItems sampleCsv).length = some 100
  have hA : (groupByL1 (parseItems sampleCsv)).foldl
      (fun acc g => acc + supportedCount g.2 Framework.OWASP) 0 = 1 := by decide
  have hB : (parseItems sampleCsv).length = 1 := by decide
  rw [hA, hB, pct_eval 1 1 (by decide)]
  decide

/-! Invariants of the grouping fold. -/

/-- Every group produced by the fold is non-empty, and every item in a group
satisfies any property `R` that all incoming items (and all items already in
the accumulator) satisfy. -/
theorem foldl_insertItem_groups (R : TaxonomyItem → Prop) :
    ∀ (l : List TaxonomyItem) (acc : List (List Char × List TaxonomyItem)),
      (∀ it ∈ l, R it) →
      (∀ g ∈ acc, g.2 ≠ [] ∧ ∀ it ∈ g.2, R it) →
      ∀ g ∈ l.foldl insertItem acc, g.2 ≠ [] ∧ ∀ it ∈ g.2, R it := by
  intro l
  induction l with
  | nil => intro acc _ hacc g hg; exact hacc g hg
  | cons x xs ih =>
    intro acc hl hacc g hg
    rw [List.foldl_cons] at hg
    refine ih (insertItem acc x) (fun it hit => hl it (List.mem_cons_of_mem _ hit))
      ?_ g hg
    intro g' hg'
    unfold insertItem at hg'
    by_cases hany : (acc.any fun g => g.1 = x.l1Category) = true
    · rw [if_pos hany] at hg'
      rcases List.mem_map.mp hg' with ⟨g0, hg0, hmap⟩
      by_cases hkey : g0.1 = x.l1Category
      · rw [if_pos hkey] at hmap
        rcases hacc g0 hg0 with ⟨hne, hall⟩
        refine ⟨?_, ?_⟩
        · rw [← hmap]; simp
        · intro it hit
          rw [← hmap] at hit
          rcases List.mem_append.mp hit with h | h
          · exact hall it h
          · simp only [List.mem_singleton] at h
            rw [h]; exact hl x (List.mem_cons_self _ _)
      · rw [if_neg hkey] at hmap
        rw [← hmap]
        exact hacc g0 hg0
    · rw [if_neg hany] at hg'
      rcases List.mem_append.mp hg' with h | h
      · exact hacc g' h
      · simp only [List.mem_singleton] at h
        subst h
        refine ⟨by simp, ?_⟩
        intro it hit
        simp only [List.mem_singleton] at hit
        rw [hit]; exact hl x (List.mem_cons_self _ _)

theorem groupByL1_groups (R : TaxonomyItem → Prop) (items : List TaxonomyItem)
    (hR : ∀ it ∈ items, R it) :
    ∀ g ∈ groupByL1 items, g.2 ≠ [] ∧ ∀ it ∈ g.2, R it := by
  intro g hg
  exact foldl_insertItem_groups R items [] hR (by simp) g hg

/-- The keys of `insertItem acc it`. -/
theorem insertItem_keys (acc : List (List Char × List TaxonomyItem))
    (it : TaxonomyItem) :
    (insertItem acc it).map Prod.fst =
      if (acc.any fun g => g.1 = it.l1Category) = true then acc.map Prod.fst
      else acc.map Prod.fst ++ [it.l1Category] := by
  unfold insertItem
  by_cases hany : (acc.any fun g => g.1 = it.l1Category) = true
  · rw [if_pos hany, if_pos hany, List.map_map]
    apply List.map_congr_left
    intro g _
    by_cases hkey : g.1 = it.l1Category
    · simp [hkey]
    · simp [hkey]
  · rw [if_neg hany, if_neg hany]
    simp

theorem insertItem_keys_nodup (acc : List (List Char × List TaxonomyItem))
    (it : TaxonomyItem) (h : (acc.map Prod.fst).Nodup) :
    ((insertItem acc it).map Prod.fst).Nodup := by
  rw [insertItem_keys]
  by_cases hany : (acc.any fun g => g.1 = it.l1Category) = true
  · rw [if_pos hany]; exact h
  · rw [if_neg hany]
    rw [List.nodup_append]
    refine ⟨h, List.nodup_singleton _, ?_⟩
    intro k hk
    simp only [List.mem_singleton]
    intro hkey
    rcases List.mem_map.mp hk with ⟨g, hg, hfst⟩
    apply hany
    rw [List.any_eq_true]
    exact ⟨g, hg, by simp [hfst, hkey]⟩

/-- With distinct keys, updating the (unique) group whose key is `k` adds
exactly one to the total of the group sizes. -/
theorem sum_lengths_update (k : List Char) (it : TaxonomyItem) :
    ∀ acc : List (List Char × List TaxonomyItem),
      (acc.map Prod.fst).Nodup →
      (acc.any fun g => g.1 = k) = true →
      ((acc.map fun g =>
          if g.1 = k then (g.1, g.2 ++ [it]) else g).map fun g => g.2.length).sum
        = ((acc.map fun g => g.2.length).sum) + 1 := by
  intro acc
  induction acc with
  | nil => intro _ h; simp at h
  | cons g rest ih =>
    intro hnodup hany
    rw [List.map_cons, List.nodup_cons] at hnodup
    obtain ⟨hnotin, hnd⟩ := hnodup
    by_cases hkey : g.1 = k
    · have hrest : (rest.map fun g' =>
          if g'.1 = k then (g'.1, g'.2 ++ [it]) else g') = rest := by
        have : ∀ g' ∈ rest, (if g'.1 = k then (g'.1, g'.2 ++ [it]) else g') = g' := by
          intro g' hg'
          rw [if_neg]
          intro hk'
          exact hnotin (List.mem_map.mpr ⟨g', hg', by rw [hk', hkey]⟩)
        calc (rest.map fun g' => if g'.1 = k then (g'.1, g'.2 ++ [it]) else g')
            = rest.map id := List.map_congr_left this
          _ = rest := List.map_id rest
      rw [List.map_cons, if_pos hkey, hrest, List.map_cons, List.map_cons,
        List.sum_cons, List.sum_cons]
      simp only [List.length_append, List.length_singleton]
      omega
    · have hany' : (rest.any fun g' => g'.1 = k) = true := by
        rw [List.any_cons] at hany
        simpa [hkey] using hany
      rw [List.map_cons, if_neg hkey, List.map_cons, List.sum_cons,
        ih hnd hany', List.map_cons, List.sum_cons]
      omega

theorem insertItem_sum_lengths (it : TaxonomyItem)
    (acc : List (List Char × List TaxonomyItem))
    (hnodup : (acc.map Prod.fst).Nodup) :
    ((insertItem acc it).map fun g => g.2.length).sum =
      ((acc.map fun g => g.2.length).sum) + 1 := by
  unfold insertItem
  by_cases hany : (acc.any fun g => g.1 = it.l1Category) = true
  · rw [if_pos hany]
    exact sum_lengths_update it.l1Category it acc hnodup hany
  · rw [if_neg hany]
    simp

theorem foldl_insertItem_sum :
    ∀ (l : List TaxonomyItem) (acc : List (List Char × List TaxonomyItem)),
      (acc.map Prod.fst).Nodup →
      ((l.foldl insertItem acc).map fun g => g.2.length).sum =
        ((acc.map fun g => g.2.length).sum) + l.length := by
  intro l
  induction l with
  | nil => intro acc _; simp
  | cons x xs ih =>
    intro acc hnodup
    rw [List.foldl_cons, ih (insertItem acc x) (insertItem_keys_nodup acc x hnodup),
      insertItem_sum_lengths x acc hnodup, List.length_cons]
    omega

/-- The groups of `groupByL1` partition the items: group sizes add up to the
total item count. -/
theorem groupByL1_sum_lengths (items : List TaxonomyItem) :
    ((groupByL1 items).map fun g => g.2.length).sum = items.length := by
  rw [groupByL1, foldl_insertItem_sum items [] (by simp)]
  simp

theorem foldl_add_eq_sum_map {α : Type} (f : α → ℕ) :
    ∀ (l : List α) (a : ℕ), l.foldl (fun acc x => acc + f x) a = a + (l.map f).sum := by
  intro l
  induction l with
  | nil => intro a; simp
  | cons x xs ih =>
    intro a
    rw [List.foldl_cons, ih, List.map_cons, List.sum_cons]
    omega

theorem supportedCount_le_length (items : List TaxonomyItem) (fw : Framework) :
    supportedCount items fw ≤ items.length :=
  List.length_filter_le _ items

/-- Bounds for the rounded percentage when `0 < n` and `s ≤ n`. -/
theorem jsRound_pct_bounds (s n : ℕ) (hn : 0 < n) (hs : s ≤ n) :
    0 ≤ jsRound ((s : ℚ) / (n : ℚ) * 100) ∧
      jsRound ((s : ℚ) / (n : ℚ) * 100) ≤ 100 := by
  rw [jsRound_eq]
  have hn' : (0 : ℚ) < (n : ℚ) := by exact_mod_cast hn
  have hq0 : (0 : ℚ) ≤ (s : ℚ) / (n : ℚ) * 100 := by positivity
  have hq1 : (s : ℚ) / (n : ℚ) * 100 ≤ 100 := by
    have hdiv : (s : ℚ) / (n : ℚ) ≤ 1 :=
      (div_le_one hn').mpr (by exact_mod_cast hs)
    nlinarith
  constructor
  · exact Int.le_floor.mpr (by push_cast; linarith)
  · have hlt : ((⌊(s : ℚ) / (n : ℚ) * 100 + 1 / 2⌋ : ℤ) : ℚ) < 101 :=
      lt_of_le_of_lt (Int.floor_le _) (by linarith)
    have : (⌊(s : ℚ) / (n : ℚ) * 100 + 1 / 2⌋ : ℤ) < 101 := by exact_mod_cast hlt
    omega

theorem parseTaxonomyCSV_categories (csv : List Char) :
    (parseTaxonomyCSV csv).categories =
      (groupByL1 (parseItems csv)).map mkCategory := rfl

theorem parseTaxonomyCSV_totalItems (csv : List Char) :
    (parseTaxonomyCSV csv).totalItems = (parseItems csv).length := rfl

theorem parseTaxonomyCSV_overall (csv : List Char) (fw : Framework) :
    (parseTaxonomyCSV csv).overallCoverage fw =
      pct ((groupByL1 (parseItems csv)).foldl
          (fun acc g => acc + supportedCount g.2 fw) 0)
        (parseItems csv).length := rfl

/-- Claim C6, amended.  Every per-category coverage percentage equals
`Math.round((supported / total) * 100)` over that category's own items and is
an integer in `[0, 100]` (a grouping with zero items never arises, since
groups are created non-empty); the overall coverage likewise lies in
`[0, 100]` whenever at least one valid record was parsed; but when the valid
record set is empty (`totalItems = 0`), every overall coverage value is the
JS result `Math.round(NaN) = NaN` (modelled `none`), not `0`. -/
theorem parseTaxonomyCSV_coverage_spec (csv : List Char) :
    (∀ cat ∈ (parseTaxonomyCSV csv).categories, ∀ fw : Framework,
      cat.frameworkCoverage fw =
        some (jsRound ((supportedCount cat.subcategories fw : ℚ) /
          (cat.subcategories.length : ℚ) * 100)) ∧
      ∃ k : ℤ, cat.frameworkCoverage fw = some k ∧ 0 ≤ k ∧ k ≤ 100) ∧
    (∀ fw : Framework, 0 < (parseTaxonomyCSV csv).totalItems →
      ∃ k : ℤ, (parseTaxonomyCSV csv).overallCoverage fw = some k ∧
        0 ≤ k ∧ k ≤ 100) ∧
    ((parseTaxonomyCSV csv).totalItems = 0 →
      ∀ fw : Framework, (parseTaxonomyCSV csv).overallCoverage fw = none) := by
  refine ⟨?_, ?_, ?_⟩
  · intro cat hcat fw
    rw [parseTaxonomyCSV_categories] at hcat
    rcases List.mem_map.mp hcat with ⟨g, hg, hmk⟩
    have hgne : g.2 ≠ [] :=
      (groupByL1_groups (fun _ => True) (parseItems csv) (by simp) g hg).1
    have hlen : g.2.length ≠ 0 := fun h => hgne (List.length_eq_zero.mp h)
    have hsubs : cat.subcategories = g.2 := by rw [← hmk]; rfl
    have hcov : cat.frameworkCoverage fw =
        pct (supportedCount g.2 fw) g.2.length := by rw [← hmk]; rfl
    rw [hcov, hsubs, pct, if_neg hlen]
    refine ⟨rfl, jsRound ((supportedCount g.2 fw : ℚ) / (g.2.length : ℚ) * 100),
      rfl, ?_⟩
    exact jsRound_pct_bounds _ _ (Nat.pos_of_ne_zero hlen)
      (supportedCount_le_length g.2 fw)
  · intro fw htotal
    rw [parseTaxonomyCSV_totalItems] at htotal
    rw [parseTaxonomyCSV_overall, foldl_add_eq_sum_map, Nat.zero_add]
    have hle : (((groupByL1 (parseItems csv)).map
        fun g => supportedCount g.2 fw).sum) ≤ (parseItems csv).length := by
      calc ((groupByL1 (parseItems csv)).map fun g => supportedCount g.2 fw).sum
          ≤ ((groupByL1 (parseItems csv)).map fun g => g.2.length).sum :=
            List.sum_le_sum fun g _ => supportedCount_le_length g.2 fw
        _ = (parseItems csv).length := groupByL1_sum_lengths _
    rw [pct, if_neg (Nat.pos_iff_ne_zero.mp htotal)]
    exact ⟨_, rfl, jsRound_pct_bounds _ _ htotal hle⟩
  · intro htotal fw
    rw [parseTaxonomyCSV_totalItems] at htotal
    rw [parseTaxonomyCSV_overall, pct, if_pos htotal]

/-- Counterexample for claim C6 as stated: for the empty input the valid
record set is empty (`totalItems = 0`) and the overall OWASP coverage is the
non-numeric `NaN` (modelled `none`), not `0`. -/
theorem parseTaxonomyCSV_coverage_counterexample :
    (parseTaxonomyCSV []).totalItems = 0 ∧
      (parseTaxonomyCSV []).overallCoverage Framework.OWASP ≠ some 0 ∧
      (parseTaxonomyCSV []).overallCoverage Framework.OWASP = none :=
  ⟨rfl, by decide, rfl⟩

/-- Closed witness for the amended C6 on `sampleCsv`. -/
theorem parseTaxonomyCSV_coverage_witness :
    (∃ k : ℤ, ((parseTaxonomyCSV sampleCsv).categories.get
        ⟨0, by decide⟩).frameworkCoverage Framework.OWASP = some k ∧
        0 ≤ k ∧ k ≤ 100) ∧
    (∃ k : ℤ, (parseTaxonomyCSV sampleCsv).overallCoverage Framework.OWASP =
        some k ∧ 0 ≤ k ∧ k ≤ 100) := by
  have h := parseTaxonomyCSV_coverage_spec sampleCsv
  refine ⟨?_, ?_⟩
  · exact (h.1 _ (List.get_mem _ _ (by decide)) Framework.OWASP).2
  · exact h.2.1 Framework.OWASP (by decide)

/-- Claim C7, amended.  A row whose example column (index 3) trims to the
empty string is dropped by the row loop (no placeholder is synthesized),
whatever its other fields contain. -/
theorem parseRow_missing_example_dropped (rawLine : List Char)
    (h : jsTrim ((parseCSVLine (jsTrim rawLine)).getD 3 []) = []) :
    parseRow rawLine = none := by
  unfold parseRow
  by_cases h1 : jsTrim rawLine = []
  · rw [if_pos h1]
  · rw [if_neg h1]
    by_cases h2 : (parseCSVLine (jsTrim rawLine)).length < 10
    · rw [if_pos h2]
    · rw [if_neg h2, if_pos (Or.inr (Or.inr h))]

/-- Sample row with category and subcategory names but an empty example
column, plus a full CSV containing it. -/
def missingExampleRow : List Char := String.toList "A,B,x,,c,c,c,c,c,c"

def missingExampleCsv : List Char := String.toList "h\nA,B,x,,c,c,c,c,c,c"

/-- Counterexample for claim C7 as stated: this row has 10 columns, a
non-empty category name and subcategory name, and an empty example field; the
parser drops it (no record at all is produced), instead of keeping it with a
synthesized placeholder example. -/
theorem parseRow_missing_example_counterexample :
    jsTrim ((parseCSVLine (jsTrim missingExampleRow)).getD 0 []) ≠ [] ∧
    jsTrim ((parseCSVLine (jsTrim missingExampleRow)).getD 1 []) ≠ [] ∧
    jsTrim ((parseCSVLine (jsTrim missingExampleRow)).getD 3 []) = [] ∧
    (parseCSVLine (jsTrim missingExampleRow)).length = 10 ∧
    parseRow missingExampleRow = none ∧
    (parseTaxonomyCSV missingExampleCsv).totalItems = 0 := by decide

/-- Closed witness for the amended C7. -/
theorem parseRow_missing_example_witness :
    parseRow missingExampleRow = none :=
  parseRow_missing_example_dropped missingExampleRow (by decide)

theorem parseRow_id_shape (raw : List Char) (it : TaxonomyItem)
    (h : parseRow raw = some it) :
    it.id = sanitize (it.l1Category ++ '-' :: it.l2Category) := by
  unfold parseRow at h
  by_cases h1 : jsTrim raw = []
  · rw [if_pos h1] at h; exact absurd h (by simp)
  · rw [if_neg h1] at h
    by_cases h2 : (parseCSVLine (jsTrim raw)).length < 10
    · rw [if_pos h2] at h; exact absurd h (by simp)
    · rw [if_neg h2] at h
      by_cases h3 : jsTrim ((parseCSVLine (jsTrim raw)).getD 0 []) = [] ∨
          jsTrim ((parseCSVLine (jsTrim raw)).getD 1 []) = [] ∨
          jsTrim ((parseCSVLine (jsTrim raw)).getD 3 []) = []
      · rw [if_pos h3] at h; exact absurd h (by simp)
      · rw [if_neg h3, Option.some.injEq] at h
        subst h
        rfl

theorem parseItems_id_shape (csv : List Char) :
    ∀ it ∈ parseItems csv,
      it.id = sanitize (it.l1Category ++ '-' :: it.l2Category) := by
  intro it hit
  rcases List.mem_filterMap.mp hit with ⟨raw, -, hrow⟩
  exact parseRow_id_shape raw it hrow

/-- Claim C8, amended.  Every parsed item's `id` is the concatenation of its
category and subcategory names only (joined by `-`, with every
non-alphanumeric character replaced by `-`); the leaf item name does not
enter the `id`, so distinct (category, subcategory, item) triples do not
guarantee distinct ids — ids coincide exactly when the sanitized
category/subcategory concatenations coincide. -/
theorem parseTaxonomyCSV_id_shape (csv : List Char) :
    ∀ cat ∈ (parseTaxonomyCSV csv).categories, ∀ it ∈ cat.subcategories,
      it.id = sanitize (it.l1Category ++ '-' :: it.l2Category) := by
  intro cat hcat it hit
  rw [parseTaxonomyCSV_categories] at hcat
  rcases List.mem_map.mp hcat with ⟨g, hg, hmk⟩
  have hsubs : cat.subcategories = g.2 := by rw [← hmk]; rfl
  rw [hsubs] at hit
  exact (groupByL1_groups
    (fun x => x.id = sanitize (x.l1Category ++ '-' :: x.l2Category))
    (parseItems csv) (parseItems_id_shape csv) g hg).2 it hit

/-- Two rows with the same category and subcategory names but distinct item
names and examples. -/
def duplicateIdCsv : List Char :=
  String.toList "h\nA,B,i1,e1,,,,,,\nA,B,i2,e2,,,,,,"

/-- Counterexample for claim C8 as stated: the two rows of `duplicateIdCsv`
have pairwise distinct (category, subcategory, item) name triples (they differ
in the third column and in the example), yet both parsed records receive the
same id `A-B` — the id uses only the category and subcategory names. -/
theorem parseTaxonomyCSV_id_counterexample :
    ((parseTaxonomyCSV duplicateIdCsv).categories.map
        fun c => c.subcategories.map (·.id)) =
      [[String.toList "A-B", String.toList "A-B"]] ∧
    ((parseTaxonomyCSV duplicateIdCsv).categories.map
        fun c => c.subcategories.map (·.exampleText)) =
      [[String.toList "e1", String.toList "e2"]] ∧
    (parseTaxonomyCSV duplicateIdCsv).totalItems = 2 := by decide

/-- Closed witness for the amended C8. -/
theorem parseTaxonomyCSV_id_witness :
    (((parseTaxonomyCSV duplicateIdCsv).categories.get
        ⟨0, by decide⟩).subcategories.get ⟨0, by decide⟩).id =
      sanitize ((((parseTaxonomyCSV duplicateIdCsv).categories.get
        ⟨0, by decide⟩).subcategories.get ⟨0, by decide⟩).l1Category ++
        '-' :: (((parseTaxonomyCSV duplicateIdCsv).categories.get
        ⟨0, by decide⟩).subcategories.get ⟨0, by decide⟩).l2Category) :=
  parseTaxonomyCSV_id_shape duplicateIdCsv _
    (List.get_mem _ _ (by decide)) _ (List.get_mem _ _ (by decide))

/-- Claim C9, amended.  When zero valid records are parsed the builder does
not fail: it returns a normal `TaxonomyData` value with no categories, a zero
item count and `NaN` overall coverages; no `DataEmpty` error condition exists
in the code. -/
theorem parseTaxonomyCSV_empty_returns_normal (csv : List Char)
    (h : parseItems csv = []) :
    (parseTaxonomyCSV csv).categories = [] ∧
    (parseTaxonomyCSV csv).totalItems = 0 ∧
    ∀ fw : Framework, (parseTaxonomyCSV csv).overallCoverage fw = none := by
  refine ⟨?_, ?_, ?_⟩
  · rw [parseTaxonomyCSV_categories, h]
    rfl
  · rw [parseTaxonomyCSV_totalItems, h]
    rfl
  · intro fw
    rw [parseTaxonomyCSV_overall, h]
    rfl

/-- Counterexample for claim C9 as stated: on the empty input (zero valid
records) `parseTaxonomyCSV` returns an ordinary `TaxonomyData` value — there
is no error path; no `DataEmpty`-like failure is raised. -/
theorem parseTaxonomyCSV_empty_counterexample :
    (parseTaxonomyCSV []).categories = [] ∧
      (parseTaxonomyCSV []).totalItems = 0 ∧
      (parseTaxonomyCSV []).overallCoverage Framework.NIST = none :=
  ⟨rfl, rfl, rfl⟩

/-- Closed witness for the amended C9. -/
theorem parseTaxonomyCSV_empty_witness :
    (parseTaxonomyCSV (String.toList "h")).categories = [] ∧
      (parseTaxonomyCSV (String.toList "h")).totalItems = 0 :=
  ⟨(parseTaxonomyCSV_empty_returns_normal _ (by decide)).1,
    (parseTaxonomyCSV_empty_returns_normal _ (by decide)).2.1⟩

end Csv

/-! The schema-level data model of `src/shared/schema.ts` (the three-level
tree consumed by `taxonomy-utils.ts` and `sunburst-chart.tsx`). -/

namespace Schema

/-- `taxonomyItemSchema`; the source field `example` is called `exampleText`
because `example` is a Lean keyword. -/
structure TaxonomyItem where
  id : String
  l1Category : String
  l2Category : String
  l3Category : String
  l3Number : ℕ
  exampleText : String
  frameworks : List Csv.Framework
deriving DecidableEq

structure TaxonomySubcategory where
  name : String
  items : List TaxonomyItem
  frameworkCoverage : Csv.Framework → ℚ

structure TaxonomyCategory where
  name : String
  color : String
  subcategories : List TaxonomySubcategory
  frameworkCoverage : Csv.Framework → ℚ

structure TaxonomyData where
  categories : List TaxonomyCategory
  totalItems : ℕ
  overallCoverage : Csv.Framework → ℚ

end Schema

/-! `createHierarchyData` of `src/client/src/lib/taxonomy-utils.ts`
(lines 16-50).  The source's recursive `HierarchyNode` is realized level by
level (`HRoot` → `HCat` → `HSub` → `HItem`), exactly mirroring the four node
shapes the function actually constructs: the root carries no `value` and no
`data` (those optional fields are absent), categories carry `value: 1`,
subcategories `value: baseL2Value`, items `value: baseL3Value`. -/

namespace TaxonomyUtils

structure HItem where
  name : String
  value : ℚ
  data : Schema.TaxonomyItem

structure HSub where
  name : String
  value : ℚ
  data : Schema.TaxonomySubcategory
  children : List HItem

structure HCat where
  name : String
  color : String
  value : ℚ
  data : Schema.TaxonomyCategory
  children : List HSub

structure HRoot where
  name : String
  children : List HCat

def createHierarchyData (taxonomyData : Schema.TaxonomyData) : HRoot :=
  { name := "AI Safety Taxonomy"
    children := taxonomyData.categories.map fun category =>
      let l2Count : ℚ := category.subcategories.length
      let baseL2Value : ℚ := 1 / l2Count
      { name := category.name
        color := category.color
        value := 1
        data := category
        children := category.subcategories.map fun subcategory =>
          let l3Count : ℚ := subcategory.items.length
          let baseL3Value : ℚ := baseL2Value / l3Count
          { name := subcategory.name
            value := baseL2Value
            data := subcategory
            children := subcategory.items.map fun item =>
              { name := item.l3Category
                value := baseL3Value
                data := item } } } }

/-- Claim C2, amended.  In the hierarchy built by `createHierarchyData` the
root node carries no weight field at all, every Category node has weight `1`
(not `1 / categoryCount` — by the source comment, "Equal L1 slices"), every
Subcategory node has weight `1 / subcategoryCount` (which equals
`parentCategoryWeight / subcategoryCount` only because the parent's weight is
`1`), and every Item node has weight
`parentSubcategoryWeight / itemCount`; in particular, for an input with
exactly 2 categories the two Category nodes have weight `1` each, not `0.5`. -/
theorem createHierarchyData_weights (t : Schema.TaxonomyData) :
    ∀ hc ∈ (createHierarchyData t).children,
      hc.value = 1 ∧
      ∀ hs ∈ hc.children,
        hs.value = 1 / (hc.children.length : ℚ) ∧
        ∀ hi ∈ hs.children,
          hi.value = hs.value / (hs.children.length : ℚ) := by
  intro hc hhc
  rcases List.mem_map.mp hhc with ⟨category, hcat, rfl⟩
  refine ⟨rfl, ?_⟩
  intro hs hhs
  rcases List.mem_map.mp hhs with ⟨subcategory, hsub, rfl⟩
  constructor
  · show (1 : ℚ) / (category.subcategories.length : ℚ) = _
    simp
  · intro hi hhi
    rcases List.mem_map.mp hhi with ⟨item, hitem, rfl⟩
    show (1 : ℚ) / (category.subcategories.length : ℚ) /
        (subcategory.items.length : ℚ) = _
    simp

/-- A two-category input (the claim's own end-to-end scenario shape). -/
def zeroCov : Csv.Framework → ℚ := fun _ => 0

def mkItem (l1 l2 l3 : String) : Schema.TaxonomyItem :=
  ⟨l1 ++ "-" ++ l2, l1, l2, l3, 1, "ex", []⟩

def twoCatData : Schema.TaxonomyData :=
  { categories :=
      [⟨"C1", "red", [⟨"S1", [mkItem "C1" "S1" "I1", mkItem "C1" "S1" "I2"],
          zeroCov⟩, ⟨"S2", [mkItem "C1" "S2" "I3"], zeroCov⟩,
          ⟨"S3", [mkItem "C1" "S3" "I4"], zeroCov⟩], zeroCov⟩,
       ⟨"C2", "blue", [⟨"S4", [mkItem "C2" "S4" "I5"], zeroCov⟩], zeroCov⟩]
    totalItems := 5
    overallCoverage := zeroCov }

/-- Counterexample for claim C2 as stated: with exactly 2 categories the two
Category nodes built by `createHierarchyData` have weight `1` each (the
source hard-codes `value: 1` per category), not `0.5` each. -/
theorem createHierarchyData_weights_counterexample :
    ((createHierarchyData twoCatData).children.map (·.value)) = [1, 1] ∧
      ¬ ((createHierarchyData twoCatData).children.map (·.value)) =
        [1 / 2, 1 / 2] := by
  refine ⟨rfl, ?_⟩
  intro h
  have hb : ((createHierarchyData twoCatData).children.map (·.value)) =
    [1, 1] := rfl
  have h1 : [(1 : ℚ), 1] = [1 / 2, 1 / 2] := hb.symm.trans h
  simp only [List.cons.injEq] at h1
  norm_num at h1

/-- Default nodes used only as `getD` fallbacks in witnesses. -/
def dHSub : HSub := ⟨"", 0, ⟨"", [], zeroCov⟩, []⟩

def dHCat : HCat := ⟨"", "", 0, ⟨"", "", [], zeroCov⟩, []⟩

/-- Closed witness for the amended C2 at `twoCatData`. -/
theorem createHierarchyData_weights_witness :
    ((createHierarchyData twoCatData).children.getD 0 dHCat).value = 1 ∧
    (((createHierarchyData twoCatData).children.getD 0 dHCat).children.getD 0
        dHSub).value =
      1 / ((((createHierarchyData twoCatData).children.getD 0
        dHCat).children.length : ℚ)) := by
  have hlen1 : 0 < (createHierarchyData twoCatData).children.length := by decide
  have hmem1 : (createHierarchyData twoCatData).children.getD 0 dHCat ∈
      (createHierarchyData twoCatData).children := by
    rw [List.getD_eq_getElem _ dHCat hlen1]
    exact List.getElem_mem hlen1
  have h := createHierarchyData_weights twoCatData _ hmem1
  have hlen2 : 0 < ((createHierarchyData twoCatData).children.getD 0
      dHCat).children.length := by decide
  have hmem2 : ((createHierarchyData twoCatData).children.getD 0
      dHCat).children.getD 0 dHSub ∈
      ((createHierarchyData twoCatData).children.getD 0 dHCat).children := by
    rw [List.getD_eq_getElem _ dHSub hlen2]
    exact List.getElem_mem hlen2
  exact ⟨h.1, (h.2 _ hmem2).1⟩

end TaxonomyUtils

/-! The angular layout of `sunburst-chart.tsx`.  Angles are in units of π
(full circle = `2`).  Only the angular fields `x0`, `x1` matter for claims C1
and C3 (the radial bands `y0`, `y1` are constants per depth and are not part
of the tiling claims); nodes are represented per depth, matching the actual
depth-3 data (`root → category → subcategory → item`), items childless. -/

namespace Chart

structure LItem where
  x0 : ℚ
  x1 : ℚ
deriving DecidableEq

structure LSub where
  x0 : ℚ
  x1 : ℚ
  items : List LItem
deriving DecidableEq

structure LCat where
  x0 : ℚ
  x1 : ℚ
  subs : List LSub
deriving DecidableEq

structure LRoot where
  x0 : ℚ
  x1 : ℚ
  cats : List LCat
deriving DecidableEq

/-- The gap-fix pass (sunburst-chart.tsx lines 131-143): for every node with
children, child `index` gets
`[x0 + index*size, x0 + (index+1)*size]` with
`size = (parent.x1 - parent.x0) / childCount` — an exact equal division of
the parent's interval in sibling order.  Parents are visited before children
(`descendants()` order), so each child's own children are divided inside the
child's already-updated interval; the accumulating recursions below advance
`lo` by `w` per sibling, which yields exactly those endpoints. -/
def fixItems (w : ℚ) : ℚ → List LItem → List LItem
  | _, [] => []
  | lo, _ :: rest => ⟨lo, lo + w⟩ :: fixItems w (lo + w) rest

def fixSubs (w : ℚ) : ℚ → List LSub → List LSub
  | _, [] => []
  | lo, s :: rest =>
    ⟨lo, lo + w, fixItems (w / (s.items.length : ℚ)) lo s.items⟩ ::
      fixSubs w (lo + w) rest

def fixCats (w : ℚ) : ℚ → List LCat → List LCat
  | _, [] => []
  | lo, c :: rest =>
    ⟨lo, lo + w, fixSubs (w / (c.subs.length : ℚ)) lo c.subs⟩ ::
      fixCats w (lo + w) rest

def gapFix (r : LRoot) : LRoot :=
  ⟨r.x0, r.x1, fixCats ((r.x1 - r.x0) / (r.cats.length : ℚ)) r.x0 r.cats⟩

/-- The zoom re-layout (sunburst-chart.tsx lines 248-293) applied to the
selected depth-1 node: the L1 interval becomes the fixed span `1.6π` centered
at `0` (`[-0.8π, 0.8π]`, i.e. `[-4/5, 4/5]` in units of π); each L2 child is
remapped by its proportion inside the original L1 interval; each L3 child by
its proportion inside its own L2 parent's original interval, applied to that
parent's new interval. -/
def zoomItem (originalL2Start originalL2End newL2Start newL2End : ℚ)
    (l3 : LItem) : LItem :=
  let l3ProportionStart :=
    (l3.x0 - originalL2Start) / (originalL2End - originalL2Start)
  let l3ProportionEnd :=
    (l3.x1 - originalL2Start) / (originalL2End - originalL2Start)
  ⟨newL2Start + l3ProportionStart * (newL2End - newL2Start),
   newL2Start + l3ProportionEnd * (newL2End - newL2Start)⟩

def zoomSub (originalStartAngle originalAngularSize newStartAngle
    newAngularSize : ℚ) (l2 : LSub) : LSub :=
  let proportionStart := (l2.x0 - originalStartAngle) / originalAngularSize
  let proportionEnd := (l2.x1 - originalStartAngle) / originalAngularSize
  let newL2Start := newStartAngle + proportionStart * newAngularSize
  let newL2End := newStartAngle + proportionEnd * newAngularSize
  ⟨newL2Start, newL2End,
   l2.items.map (zoomItem l2.x0 l2.x1 newL2Start newL2End)⟩

def zoomCat (c : LCat) : LCat :=
  let originalAngularSize := c.x1 - c.x0
  let originalStartAngle := c.x0
  let newAngularSize : ℚ := 8 / 5
  let newStartAngle : ℚ := -(newAngularSize / 2)
  let newEndAngle : ℚ := newAngularSize / 2
  ⟨newStartAngle, newEndAngle,
   c.subs.map
     (zoomSub originalStartAngle originalAngularSize newStartAngle
       newAngularSize)⟩

/-! Tiling predicates: a list of intervals tiles `[a, b]` when the first
starts at `a`, each interval is non-degenerate in order, each next interval
starts where the previous ended, and the last ends at `b`. -/

def itemIv (i : LItem) : ℚ × ℚ := (i.x0, i.x1)
def subIv (s : LSub) : ℚ × ℚ := (s.x0, s.x1)
def catIv (c : LCat) : ℚ × ℚ := (c.x0, c.x1)

def tilesFromB : ℚ → ℚ → List (ℚ × ℚ) → Bool
  | a, b, [] => a == b
  | a, b, (c, d) :: rest => c == a && decide (c ≤ d) && tilesFromB d b rest

def pairwiseDisjB : List (ℚ × ℚ) → Bool
  | [] => true
  | p :: rest => rest.all (fun q => decide (p.2 ≤ q.1)) && pairwiseDisjB rest

/-- A node's children are acceptable when it has none, or when their
intervals (in sibling order) exactly tile the parent's interval and are
pairwise non-overlapping. -/
def okList (a b : ℚ) (ivs : List (ℚ × ℚ)) : Bool :=
  ivs.isEmpty || (tilesFromB a b ivs && pairwiseDisjB ivs)

def subOK (s : LSub) : Bool := okList s.x0 s.x1 (s.items.map itemIv)

def catOK (c : LCat) : Bool :=
  okList c.x0 c.x1 (c.subs.map subIv) && c.subs.all subOK

def rootOK (r : LRoot) : Bool :=
  okList r.x0 r.x1 (r.cats.map catIv) && r.cats.all catOK

end Chart

namespace Chart

theorem tilesFromB_le :
    ∀ (ivs : List (ℚ × ℚ)) (a b : ℚ), tilesFromB a b ivs = true →
      ∀ q ∈ ivs, a ≤ q.1 := by
  intro ivs
  induction ivs with
  | nil => intro a b _ q hq; exact absurd hq (List.not_mem_nil q)
  | cons p rest ih =>
    intro a b h q hq
    rcases p with ⟨c, d⟩
    simp only [tilesFromB, Bool.and_eq_true, beq_iff_eq, decide_eq_true_eq] at h
    obtain ⟨⟨hca, hcd⟩, hrest⟩ := h
    rcases List.mem_cons.mp hq with rfl | hq'
    · exact le_of_eq hca.symm
    · have := ih d b hrest q hq'
      calc a = c := hca.symm
        _ ≤ d := hcd
        _ ≤ q.1 := this

theorem tilesFromB_pairwise :
    ∀ (ivs : List (ℚ × ℚ)) (a b : ℚ), tilesFromB a b ivs = true →
      pairwiseDisjB ivs = true := by
  intro ivs
  induction ivs with
  | nil => intro a b _; rfl
  | cons p rest ih =>
    intro a b h
    rcases p with ⟨c, d⟩
    simp only [tilesFromB, Bool.and_eq_true, beq_iff_eq, decide_eq_true_eq] at h
    obtain ⟨⟨hca, hcd⟩, hrest⟩ := h
    simp only [pairwiseDisjB, Bool.and_eq_true]
    refine ⟨?_, ih d b hrest⟩
    rw [List.all_eq_true]
    intro q hq
    simpa using tilesFromB_le rest d b hrest q hq

/-- The interval list produced by an equal division: `n` consecutive
intervals of width `w` starting at `lo`. -/
def arithIvs (w : ℚ) : ℚ → ℕ → List (ℚ × ℚ)
  | _, 0 => []
  | lo, n + 1 => (lo, lo + w) :: arithIvs w (lo + w) n

theorem fixItems_ivs (w : ℚ) :
    ∀ (xs : List LItem) (lo : ℚ),
      (fixItems w lo xs).map itemIv = arithIvs w lo xs.length := by
  intro xs
  induction xs with
  | nil => intro lo; rfl
  | cons x rest ih =>
    intro lo
    simp only [fixItems, List.map_cons, List.length_cons, arithIvs, itemIv,
      ih (lo + w)]

theorem fixSubs_ivs (w : ℚ) :
    ∀ (gs : List LSub) (lo : ℚ),
      (fixSubs w lo gs).map subIv = arithIvs w lo gs.length := by
  intro gs
  induction gs with
  | nil => intro lo; rfl
  | cons s rest ih =>
    intro lo
    simp only [fixSubs, List.map_cons, List.length_cons, arithIvs, subIv,
      ih (lo + w)]

theorem fixCats_ivs (w : ℚ) :
    ∀ (cs : List LCat) (lo : ℚ),
      (fixCats w lo cs).map catIv = arithIvs w lo cs.length := by
  intro cs
  induction cs with
  | nil => intro lo; rfl
  | cons c rest ih =>
    intro lo
    simp only [fixCats, List.map_cons, List.length_cons, arithIvs, catIv,
      ih (lo + w)]

theorem arithIvs_tiles (w : ℚ) (hw : 0 ≤ w) :
    ∀ (n : ℕ) (lo : ℚ),
      tilesFromB lo (lo + (n : ℚ) * w) (arithIvs w lo n) = true := by
  intro n
  induction n with
  | zero => intro lo; simp [arithIvs, tilesFromB]
  | succ m ih =>
    intro lo
    have htarget : lo + ((m + 1 : ℕ) : ℚ) * w = (lo + w) + (m : ℚ) * w := by
      push_cast
      ring
    rw [htarget]
    simp only [arithIvs, tilesFromB, Bool.and_eq_true, beq_iff_eq,
      decide_eq_true_eq]
    refine ⟨⟨by simp, by linarith⟩, ih (lo + w)⟩

theorem fixSubs_mem_span (w : ℚ) :
    ∀ (gs : List LSub) (lo : ℚ), ∀ s ∈ fixSubs w lo gs, s.x1 - s.x0 = w := by
  intro gs
  induction gs with
  | nil => intro lo s hs; exact absurd hs (List.not_mem_nil s)
  | cons g rest ih =>
    intro lo s hs
    rcases List.mem_cons.mp hs with rfl | hs'
    · show lo + w - lo = w
      ring
    · exact ih (lo + w) s hs'

theorem subOK_fixSubs (w : ℚ) (hw : 0 ≤ w) :
    ∀ (gs : List LSub) (lo : ℚ), ∀ s ∈ fixSubs w lo gs, subOK s = true := by
  intro gs
  induction gs with
  | nil => intro lo s hs; exact absurd hs (List.not_mem_nil s)
  | cons g rest ih =>
    intro lo s hs
    rw [fixSubs] at hs
    rcases List.mem_cons.mp hs with rfl | hs'
    · show okList lo (lo + w)
        ((fixItems (w / (g.items.length : ℚ)) lo g.items).map itemIv) = true
      by_cases hnil : g.items = []
      · rw [hnil]
        rfl
      · have hlen : (g.items.length : ℚ) ≠ 0 :=
          Nat.cast_ne_zero.mpr fun h => hnil (List.length_eq_zero.mp h)
        have hw' : 0 ≤ w / (g.items.length : ℚ) := by
          apply div_nonneg hw
          positivity
        have htiles := arithIvs_tiles (w / (g.items.length : ℚ)) hw'
          g.items.length lo
        have hsum : lo + (g.items.length : ℚ) * (w / (g.items.length : ℚ)) =
            lo + w := by
          field_simp
        rw [hsum] at htiles
        rw [okList, fixItems_ivs, Bool.or_eq_true]
        right
        rw [Bool.and_eq_true]
        exact ⟨htiles, tilesFromB_pairwise _ _ _ htiles⟩
    · exact ih (lo + w) s hs'

theorem catOK_fixCats (w : ℚ) (hw : 0 ≤ w) :
    ∀ (cs : List LCat) (lo : ℚ), ∀ c ∈ fixCats w lo cs, catOK c = true := by
  intro cs
  induction cs with
  | nil => intro lo c hc; exact absurd hc (List.not_mem_nil c)
  | cons c0 rest ih =>
    intro lo c hc
    rw [fixCats] at hc
    rcases List.mem_cons.mp hc with rfl | hc'
    · rw [catOK, Bool.and_eq_true]
      constructor
      · show okList lo (lo + w)
          ((fixSubs (w / (c0.subs.length : ℚ)) lo c0.subs).map subIv) = true
        by_cases hnil : c0.subs = []
        · rw [hnil]
          rfl
        · have hlen : (c0.subs.length : ℚ) ≠ 0 :=
            Nat.cast_ne_zero.mpr fun h => hnil (List.length_eq_zero.mp h)
          have hw' : 0 ≤ w / (c0.subs.length : ℚ) := by
            apply div_nonneg hw
            positivity
          have htiles := arithIvs_tiles (w / (c0.subs.length : ℚ)) hw'
            c0.subs.length lo
          have hsum : lo + (c0.subs.length : ℚ) *
              (w / (c0.subs.length : ℚ)) = lo + w := by
            field_simp
          rw [hsum] at htiles
          rw [okList, fixSubs_ivs, Bool.or_eq_true]
          right
          rw [Bool.and_eq_true]
          exact ⟨htiles, tilesFromB_pairwise _ _ _ htiles⟩
      · rw [List.all_eq_true]
        intro s hs
        exact subOK_fixSubs (w / (c0.subs.length : ℚ))
          (div_nonneg hw (by positivity)) c0.subs lo s hs
    · exact ih (lo + w) c hc'

theorem rootOK_gapFix (r : LRoot) (h0 : r.x0 = 0) (h1 : r.x1 = 2) :
    rootOK (gapFix r) = true := by
  have hw : 0 ≤ (r.x1 - r.x0) / (r.cats.length : ℚ) := by
    rw [h0, h1]
    positivity
  rw [rootOK, Bool.and_eq_true]
  constructor
  · show okList r.x0 r.x1
      ((fixCats ((r.x1 - r.x0) / (r.cats.length : ℚ)) r.x0 r.cats).map catIv) =
      true
    by_cases hnil : r.cats = []
    · rw [hnil]
      rfl
    · have hlen : (r.cats.length : ℚ) ≠ 0 :=
        Nat.cast_ne_zero.mpr fun h => hnil (List.length_eq_zero.mp h)
      have htiles := arithIvs_tiles ((r.x1 - r.x0) / (r.cats.length : ℚ)) hw
        r.cats.length r.x0
      have hsum : r.x0 + (r.cats.length : ℚ) *
          ((r.x1 - r.x0) / (r.cats.length : ℚ)) = r.x1 := by
        field_simp
      rw [hsum] at htiles
      rw [okList, fixCats_ivs, Bool.or_eq_true]
      right
      rw [Bool.and_eq_true]
      exact ⟨htiles, tilesFromB_pairwise _ _ _ htiles⟩
  · rw [List.all_eq_true]
    intro c hc
    exact catOK_fixCats _ hw r.cats r.x0 c hc

end Chart

namespace Chart

theorem tilesFromB_map_affine (u k : ℚ) (hk : 0 ≤ k) :
    ∀ (ivs : List (ℚ × ℚ)) (a b : ℚ), tilesFromB a b ivs = true →
      tilesFromB (u + a * k) (u + b * k)
        (ivs.map fun p => (u + p.1 * k, u + p.2 * k)) = true := by
  intro ivs
  induction ivs with
  | nil =>
    intro a b h
    simp only [tilesFromB, beq_iff_eq] at h ⊢
    rw [h]
  | cons p rest ih =>
    intro a b h
    rcases p with ⟨c, d⟩
    simp only [tilesFromB, Bool.and_eq_true, beq_iff_eq, decide_eq_true_eq,
      List.map_cons] at h ⊢
    obtain ⟨⟨hca, hcd⟩, hrest⟩ := h
    refine ⟨⟨by rw [hca], ?_⟩, ih d b hrest⟩
    have := mul_le_mul_of_nonneg_right hcd hk
    linarith

theorem fixCats_sub_spans (w : ℚ) (hw : 0 < w) :
    ∀ (cs : List LCat) (lo : ℚ), ∀ c ∈ fixCats w lo cs,
      c.x1 - c.x0 = w ∧ ∀ s ∈ c.subs, 0 < s.x1 - s.x0 := by
  intro cs
  induction cs with
  | nil => intro lo c hc; exact absurd hc (List.not_mem_nil c)
  | cons c0 rest ih =>
    intro lo c hc
    rw [fixCats] at hc
    rcases List.mem_cons.mp hc with rfl | hc'
    · refine ⟨by show lo + w - lo = w; ring, ?_⟩
      intro s hs
      have hne : c0.subs ≠ [] := by
        intro h
        rw [h] at hs
        exact absurd hs (List.not_mem_nil s)
      have hspan := fixSubs_mem_span (w / (c0.subs.length : ℚ)) c0.subs lo s hs
      rw [hspan]
      exact div_pos hw (by exact_mod_cast List.length_pos.mpr hne)
    · exact ih (lo + w) c hc'

/-- Projection equations for the zoom helpers. -/
theorem zoomSub_x0 (a sz ns nsz : ℚ) (l2 : LSub) :
    (zoomSub a sz ns nsz l2).x0 = ns + (l2.x0 - a) / sz * nsz := rfl

theorem zoomSub_x1 (a sz ns nsz : ℚ) (l2 : LSub) :
    (zoomSub a sz ns nsz l2).x1 = ns + (l2.x1 - a) / sz * nsz := rfl

theorem zoomSub_items (a sz ns nsz : ℚ) (l2 : LSub) :
    (zoomSub a sz ns nsz l2).items =
      l2.items.map (zoomItem l2.x0 l2.x1 (ns + (l2.x0 - a) / sz * nsz)
        (ns + (l2.x1 - a) / sz * nsz)) := rfl

theorem zoomItem_eq (os oe ns ne : ℚ) (l3 : LItem) :
    zoomItem os oe ns ne l3 =
      ⟨ns + (l3.x0 - os) / (oe - os) * (ne - ns),
       ns + (l3.x1 - os) / (oe - os) * (ne - ns)⟩ := rfl

theorem zoomCat_x0 (c : LCat) : (zoomCat c).x0 = -((8 : ℚ) / 5 / 2) := rfl

theorem zoomCat_x1 (c : LCat) : (zoomCat c).x1 = (8 : ℚ) / 5 / 2 := rfl

theorem zoomCat_subs (c : LCat) :
    (zoomCat c).subs =
      c.subs.map
        (zoomSub c.x0 (c.x1 - c.x0) (-((8 : ℚ) / 5 / 2)) (8 / 5)) := rfl

/-- The zoom re-layout preserves the tiling invariant: each band is remapped
by an affine map with non-negative slope, which maps the original chain onto
the new chain. -/
theorem catOK_zoomCat (c : LCat) (hspan : 0 < c.x1 - c.x0)
    (hsubspan : ∀ s ∈ c.subs, 0 < s.x1 - s.x0) (hok : catOK c = true) :
    catOK (zoomCat c) = true := by
  have hab : c.x1 - c.x0 ≠ 0 := ne_of_gt hspan
  have hk : 0 ≤ (8 / 5 : ℚ) / (c.x1 - c.x0) :=
    le_of_lt (div_pos (by norm_num) hspan)
  rw [catOK, Bool.and_eq_true] at hok
  obtain ⟨hoklist, hokall⟩ := hok
  rw [catOK, Bool.and_eq_true]
  constructor
  · rw [zoomCat_x0, zoomCat_x1, zoomCat_subs]
    by_cases hnil : c.subs = []
    · rw [hnil]
      rfl
    · have hmap : (c.subs.map
          (zoomSub c.x0 (c.x1 - c.x0) (-((8 : ℚ) / 5 / 2)) (8 / 5))).map subIv
          = (c.subs.map subIv).map (fun p =>
            ((-((8 : ℚ) / 5 / 2) - c.x0 * ((8 / 5) / (c.x1 - c.x0))) +
                p.1 * ((8 / 5) / (c.x1 - c.x0)),
             (-((8 : ℚ) / 5 / 2) - c.x0 * ((8 / 5) / (c.x1 - c.x0))) +
                p.2 * ((8 / 5) / (c.x1 - c.x0)))) := by
        simp only [List.map_map]
        apply List.map_congr_left
        intro s _
        simp only [Function.comp_apply, subIv, zoomSub_x0, zoomSub_x1,
          Prod.mk.injEq]
        constructor
        · field_simp
          ring
        · field_simp
          ring
      rw [okList, Bool.or_eq_true] at hoklist
      rcases hoklist with hempty | htp
      · rw [List.isEmpty_iff, List.map_eq_nil_iff] at hempty
        exact absurd hempty hnil
      · rw [Bool.and_eq_true] at htp
        obtain ⟨htiles, -⟩ := htp
        have hz := tilesFromB_map_affine
          (-((8 : ℚ) / 5 / 2) - c.x0 * ((8 / 5) / (c.x1 - c.x0)))
          ((8 / 5) / (c.x1 - c.x0)) hk (c.subs.map subIv) c.x0 c.x1 htiles
        have hlo : (-((8 : ℚ) / 5 / 2) - c.x0 * ((8 / 5) / (c.x1 - c.x0))) +
            c.x0 * ((8 / 5) / (c.x1 - c.x0)) = -((8 : ℚ) / 5 / 2) := by
          ring
        have hhi : (-((8 : ℚ) / 5 / 2) - c.x0 * ((8 / 5) / (c.x1 - c.x0))) +
            c.x1 * ((8 / 5) / (c.x1 - c.x0)) = (8 : ℚ) / 5 / 2 := by
          field_simp
          ring
        rw [hlo, hhi, ← hmap] at hz
        rw [okList, Bool.or_eq_true]
        right
        rw [Bool.and_eq_true]
        exact ⟨hz, tilesFromB_pairwise _ _ _ hz⟩
  · rw [List.all_eq_true]
    intro s' hs'
    rw [zoomCat_subs] at hs'
    rcases List.mem_map.mp hs' with ⟨s, hs, rfl⟩
    have hsspan : 0 < s.x1 - s.x0 := hsubspan s hs
    have hsne : s.x1 - s.x0 ≠ 0 := ne_of_gt hsspan
    rw [subOK, zoomSub_x0, zoomSub_x1, zoomSub_items]
    by_cases hnil : s.items = []
    · rw [hnil]
      rfl
    · have hsok : subOK s = true := by
        rw [List.all_eq_true] at hokall
        exact hokall s hs
      rw [subOK, okList, Bool.or_eq_true] at hsok
      rcases hsok with hempty | htp
      · rw [List.isEmpty_iff, List.map_eq_nil_iff] at hempty
        exact absurd hempty hnil
      · rw [Bool.and_eq_true] at htp
        obtain ⟨htiles, -⟩ := htp
        have hd : (-((8 : ℚ) / 5 / 2) + (s.x1 - c.x0) / (c.x1 - c.x0) * (8 / 5))
            - (-((8 : ℚ) / 5 / 2) + (s.x0 - c.x0) / (c.x1 - c.x0) * (8 / 5)) =
            (s.x1 - s.x0) * ((8 / 5) / (c.x1 - c.x0)) := by
          field_simp
          ring
        have hmap2 : (s.items.map (zoomItem s.x0 s.x1
              (-((8 : ℚ) / 5 / 2) + (s.x0 - c.x0) / (c.x1 - c.x0) * (8 / 5))
              (-((8 : ℚ) / 5 / 2) + (s.x1 - c.x0) / (c.x1 - c.x0) * (8 / 5)))).map
              itemIv
            = (s.items.map itemIv).map (fun p =>
              (((-((8 : ℚ) / 5 / 2) + (s.x0 - c.x0) / (c.x1 - c.x0) * (8 / 5)) -
                  s.x0 * ((8 / 5) / (c.x1 - c.x0))) +
                  p.1 * ((8 / 5) / (c.x1 - c.x0)),
               ((-((8 : ℚ) / 5 / 2) + (s.x0 - c.x0) / (c.x1 - c.x0) * (8 / 5)) -
                  s.x0 * ((8 / 5) / (c.x1 - c.x0))) +
                  p.2 * ((8 / 5) / (c.x1 - c.x0)))) := by
          simp only [List.map_map]
          apply List.map_congr_left
          intro l3 _
          simp only [Function.comp_apply, itemIv, zoomItem_eq, Prod.mk.injEq]
          rw [hd]
          constructor
          · field_simp
            ring
          · field_simp
            ring
        have hz := tilesFromB_map_affine
          ((-((8 : ℚ) / 5 / 2) + (s.x0 - c.x0) / (c.x1 - c.x0) * (8 / 5)) -
            s.x0 * ((8 / 5) / (c.x1 - c.x0)))
          ((8 / 5) / (c.x1 - c.x0)) hk (s.items.map itemIv) s.x0 s.x1 htiles
        have hlo : ((-((8 : ℚ) / 5 / 2) + (s.x0 - c.x0) / (c.x1 - c.x0) * (8 / 5)) -
            s.x0 * ((8 / 5) / (c.x1 - c.x0))) + s.x0 * ((8 / 5) / (c.x1 - c.x0)) =
            -((8 : ℚ) / 5 / 2) + (s.x0 - c.x0) / (c.x1 - c.x0) * (8 / 5) := by
          ring
        have hhi : ((-((8 : ℚ) / 5 / 2) + (s.x0 - c.x0) / (c.x1 - c.x0) * (8 / 5)) -
            s.x0 * ((8 / 5) / (c.x1 - c.x0))) + s.x1 * ((8 / 5) / (c.x1 - c.x0)) =
            -((8 : ℚ) / 5 / 2) + (s.x1 - c.x0) / (c.x1 - c.x0) * (8 / 5) := by
          field_simp
          ring
        rw [hlo, hhi, ← hmap2] at hz
        rw [okList, Bool.or_eq_true]
        right
        rw [Bool.and_eq_true]
        exact ⟨hz, tilesFromB_pairwise _ _ _ hz⟩

end Chart

namespace Chart

/-- Claim C1.  Angular tiling invariant: starting from the partition root
interval `[0, 2π]`, after the mandatory gap-fix pass every node with children
has children whose `[x0, x1)` intervals are pairwise non-overlapping, appear
in original sibling order, and exactly tile the parent's own interval (no
gaps, no overlap); and the same holds after the zoomed re-layout of any
selected depth-1 node's subtree. -/
theorem angular_tiling (r : LRoot) (h0 : r.x0 = 0) (h1 : r.x1 = 2) :
    rootOK (gapFix r) = true ∧
    ∀ c ∈ (gapFix r).cats, catOK (zoomCat c) = true := by
  refine ⟨rootOK_gapFix r h0 h1, ?_⟩
  intro c hc
  have hc' : c ∈ fixCats ((r.x1 - r.x0) / (r.cats.length : ℚ)) r.x0 r.cats :=
    hc
  have hne : r.cats ≠ [] := by
    intro h
    rw [h] at hc'
    exact absurd hc' (List.not_mem_nil c)
  have hwpos : 0 < (r.x1 - r.x0) / (r.cats.length : ℚ) := by
    rw [h0, h1]
    have : (0 : ℚ) < (r.cats.length : ℚ) := by
      exact_mod_cast List.length_pos.mpr hne
    positivity
  have hspans := fixCats_sub_spans _ hwpos r.cats r.x0 c hc'
  have hok := catOK_fixCats _ (le_of_lt hwpos) r.cats r.x0 c hc'
  refine catOK_zoomCat c ?_ hspans.2 hok
  rw [hspans.1]
  exact hwpos

def dLCat : LCat := ⟨0, 0, []⟩

/-- Concrete layout input: two categories, the first with two subcategories
of two and one items, the second with one subcategory of one item.  The
pre-layout angles are irrelevant (the gap-fix overwrites them), so they are
zero here. -/
def sampleRoot : LRoot :=
  ⟨0, 2, [⟨0, 0, [⟨0, 0, [⟨0, 0⟩, ⟨0, 0⟩]⟩, ⟨0, 0, [⟨0, 0⟩]⟩]⟩,
          ⟨0, 0, [⟨0, 0, [⟨0, 0⟩]⟩]⟩]⟩

/-- Closed witness for C1 at `sampleRoot`. -/
theorem angular_tiling_witness :
    rootOK (gapFix sampleRoot) = true ∧
      catOK (zoomCat ((gapFix sampleRoot).cats.getD 0 dLCat)) = true := by
  have h := angular_tiling sampleRoot rfl rfl
  refine ⟨h.1, ?_⟩
  have hlen : 0 < (gapFix sampleRoot).cats.length := by decide
  refine h.2 _ ?_
  rw [List.getD_eq_getElem _ dLCat hlen]
  exact List.getElem_mem hlen

/-- Claim C3.  Zoom re-layout: the selected node's depth-1 ancestor's angular
interval is set to the fixed span `1.6π` centered at angle `0` (that is,
`[-0.8π, 0.8π]`); every depth-2 node's endpoints are remapped by the
proportion `(originalEndpoint − originalAncestorStart) / originalAncestorSpan`
applied to the new ancestor span (added to the new start angle), and every
depth-3 node's endpoints by its proportion within its immediate depth-2
parent's original interval applied to that parent's new interval —
recursively band-by-band, exactly as in the source. -/
theorem zoom_remap_spec (c : LCat) :
    (zoomCat c).x0 = -(4 / 5 : ℚ) ∧ (zoomCat c).x1 = (4 / 5 : ℚ) ∧
    List.Forall₂ (fun (s : LSub) (s' : LSub) =>
        s'.x0 = (zoomCat c).x0 + (s.x0 - c.x0) / (c.x1 - c.x0) * (8 / 5) ∧
        s'.x1 = (zoomCat c).x0 + (s.x1 - c.x0) / (c.x1 - c.x0) * (8 / 5) ∧
        List.Forall₂ (fun (t : LItem) (t' : LItem) =>
            t'.x0 = s'.x0 + (t.x0 - s.x0) / (s.x1 - s.x0) * (s'.x1 - s'.x0) ∧
            t'.x1 = s'.x0 + (t.x1 - s.x0) / (s.x1 - s.x0) * (s'.x1 - s'.x0))
          s.items s'.items)
      c.subs (zoomCat c).subs := by
  refine ⟨by rw [zoomCat_x0]; norm_num, by rw [zoomCat_x1]; norm_num, ?_⟩
  rw [zoomCat_subs]
  rw [List.forall₂_map_right_iff]
  rw [List.forall₂_same]
  intro s _
  refine ⟨?_, ?_, ?_⟩
  · rw [zoomSub_x0, zoomCat_x0]
  · rw [zoomSub_x1, zoomCat_x0]
  · rw [zoomSub_items]
    rw [List.forall₂_map_right_iff]
    rw [List.forall₂_same]
    intro t _
    rw [zoomItem_eq, zoomSub_x0, zoomSub_x1]
    exact ⟨rfl, rfl⟩

end Chart

/-! The search filter (`filteredNodes`, sunburst-chart.tsx lines 163-204) and
the click handler (lines 559-578). -/

namespace Chart

/-- ASCII lowering, the behaviour of `String.prototype.toLowerCase` on the
taxonomy's character range. -/
def lowerChar (ch : Char) : Char :=
  if 'A' ≤ ch ∧ ch ≤ 'Z' then Char.ofNat (ch.toNat + 32) else ch

def lower (s : List Char) : List Char := s.map lowerChar

/-- The display string of each framework tag (`frameworkSchema`). -/
def fwString : Csv.Framework → String
  | .OWASP => "OWASP"
  | .NIST => "NIST"
  | .EUAIAct => "EU AI Act"
  | .USEO14110 => "US EO 14110"
  | .UKAIWhitepaper => "UK AI Whitepaper"

/-- One rendered node of the chart (`descendants().slice(1)` drops the root):
depth 1 wraps a category, depth 2 a subcategory, depth 3 an item.  For an
item node the hierarchy node's `name` is the item's `l3Category`
(`createHierarchyData`). -/
inductive ChartNode where
  | cat (c : Schema.TaxonomyCategory)
  | sub (s : Schema.TaxonomySubcategory)
  | item (it : Schema.TaxonomyItem)

/-- The item-level match used in both branches of the filter. -/
def itemMatches (query : List Char) (it : Schema.TaxonomyItem) : Bool :=
  Csv.occursIn query (lower it.l3Category.toList) ||
  Csv.occursIn query (lower it.exampleText.toList) ||
  it.frameworks.any fun fw => Csv.occursIn query (lower (fwString fw).toList)

/-- The filter predicate of `filteredNodes`: blank query keeps every node;
otherwise a subcategory node is kept when its name or one of its items
matches, a category node when its name, one of its subcategories' names, or
one of their items matches, and any other node (an item) when its display
name matches.  `query` is the lower-cased (untrimmed) search string. -/
def keepNode (searchQuery : String) (n : ChartNode) : Bool :=
  if Csv.jsTrim searchQuery.toList = [] then true
  else
    let query := lower searchQuery.toList
    match n with
    | .sub s =>
      Csv.occursIn query (lower s.name.toList) ||
        s.items.any (itemMatches query)
    | .cat c =>
      Csv.occursIn query (lower c.name.toList) ||
        c.subcategories.any fun sub =>
          Csv.occursIn query (lower sub.name.toList) ||
            sub.items.any (itemMatches query)
    | .item it => Csv.occursIn query (lower it.l3Category.toList)

/-! The claim's own visibility predicate, written from its words. -/

def ownName : ChartNode → String
  | .cat c => c.name
  | .sub s => s.name
  | .item it => it.l3Category

/-- Case-insensitive substring containment. -/
def ciContains (hay q : String) : Bool :=
  Csv.occursIn (lower q.toList) (lower hay.toList)

def specItemMatch (q : String) (it : Schema.TaxonomyItem) : Bool :=
  ciContains it.l3Category q || ciContains it.exampleText q ||
    it.frameworks.any fun fw => ciContains (fwString fw) q

/-- Claim C4's predicate, verbatim: visible iff the query is blank, the
node's own display name matches, or (for Category and Subcategory nodes) some
descendant Item's name, example text, or framework tag matches. -/
def specVisible (q : String) (n : ChartNode) : Bool :=
  (Csv.jsTrim q.toList = []) || ciContains (ownName n) q ||
    (match n with
     | .item _ => false
     | .sub s => s.items.any (specItemMatch q)
     | .cat c => c.subcategories.any fun sub => sub.items.any (specItemMatch q))

/-- The amended predicate: identical except that a Category node is also kept
when a descendant Subcategory's *name* matches. -/
def specVisibleAmended (q : String) (n : ChartNode) : Bool :=
  (Csv.jsTrim q.toList = []) || ciContains (ownName n) q ||
    (match n with
     | .item _ => false
     | .sub s => s.items.any (specItemMatch q)
     | .cat c => c.subcategories.any fun sub =>
        ciContains sub.name q || sub.items.any (specItemMatch q))

/-- A category whose only hook for the query `"zq"` is a subcategory name. -/
def zqCat : Schema.TaxonomyCategory :=
  ⟨"A", "red", [⟨"Zq", [], TaxonomyUtils.zeroCov⟩], TaxonomyUtils.zeroCov⟩

/-- Counterexample for claim C4 as stated: for query `"zq"` the chart keeps
the Category node `zqCat` (a descendant subcategory's *name* matches), but
the claim's iff-predicate — own name or descendant *Item* fields only —
rejects it. -/
theorem keepNode_counterexample :
    keepNode "zq" (ChartNode.cat zqCat) = true ∧
      specVisible "zq" (ChartNode.cat zqCat) = false := by decide

/-- Claim C4, amended.  A node is kept iff the query is blank, or its own
display name contains the query case-insensitively, or (for Subcategory
nodes) some descendant Item's name, example or framework tag matches, or
(for Category nodes) some descendant Subcategory's name or some descendant
Item's name, example or framework tag matches. -/
theorem keepNode_spec (q : String) (n : ChartNode) :
    keepNode q n = specVisibleAmended q n := by
  unfold keepNode specVisibleAmended
  simp only [String.toList]
  by_cases htrim : Csv.jsTrim q.data = []
  · simp [htrim]
  · rw [if_neg htrim, decide_eq_false htrim]
    simp only [Bool.false_or]
    have hfun : specItemMatch q = itemMatches (lower q.data) := rfl
    cases n with
    | cat c =>
      simp only [ownName, ciContains, String.toList, hfun]
    | sub s =>
      simp only [ownName, ciContains, String.toList, hfun]
    | item it =>
      simp only [ownName, ciContains, String.toList, Bool.or_false]

/-- Closed witness for the amended C4. -/
theorem keepNode_spec_witness :
    keepNode "zq" (ChartNode.cat zqCat) =
      specVisibleAmended "zq" (ChartNode.cat zqCat) :=
  keepNode_spec "zq" (ChartNode.cat zqCat)

end Chart

namespace Chart

/-- A clickable domain entity (`d.data.data` of a rendered node). -/
inductive Entity where
  | cat (c : Schema.TaxonomyCategory)
  | sub (s : Schema.TaxonomySubcategory)
  | item (it : Schema.TaxonomyItem)

/-- The JS `'name' in x` membership test: per `@shared/schema`, categories
and subcategories carry a `name` property; items do not (their display name
lives in `l3Category`). -/
def hasName : Entity → Bool
  | .cat _ => true
  | .sub _ => true
  | .item _ => false

/-- The `.name` read, performed by the handler only under the `hasName`
guard; the item arm is never reached under that guard. -/
def entityName : Entity → String
  | .cat c => c.name
  | .sub s => s.name
  | .item _ => ""

/-- The click handler's deselection test (sunburst-chart.tsx lines 565-576):
`selectedItem === clickedItem || ('name' in selectedItem && 'name' in
clickedItem && selectedItem.name === clickedItem.name)`.  `sameObject` models
the JS reference equality `===`: when the tree (or the data behind it) was
rebuilt between renders, a structurally identical node is a fresh object and
`sameObject` is `false`. -/
def clickClearsSelection (selectedItem clickedItem : Entity)
    (sameObject : Bool) : Bool :=
  sameObject ||
    (hasName selectedItem && hasName clickedItem &&
      (entityName selectedItem == entityName clickedItem))

/-- Concrete entities for the counterexample. -/
def itemA : Schema.TaxonomyItem := ⟨"id1", "C1", "S1", "I1", 1, "ex", []⟩

def subInC1 : Schema.TaxonomySubcategory :=
  ⟨"Dup", [itemA], TaxonomyUtils.zeroCov⟩

def subInC2 : Schema.TaxonomySubcategory :=
  ⟨"Dup", [], TaxonomyUtils.zeroCov⟩

/-- Counterexample for claim C5 as stated.  First: re-clicking the very same
Item by structural identity after a rebuild (`sameObject = false`, the two
`Entity.item itemA` values are structurally identical) does *not* clear the
selection, because `TaxonomyItem` has no `name` property and the handler's
only other test is object identity.  Second: the comparison is not "same
logical node within the same ancestry": two structurally different
subcategories that merely share a name do clear the selection. -/
theorem clickClearsSelection_counterexample :
    clickClearsSelection (.item itemA) (.item itemA) false = false ∧
      (subInC1 ≠ subInC2 ∧
        clickClearsSelection (.sub subInC1) (.sub subInC2) false = true) := by
  refine ⟨by decide, ?_, by decide⟩
  intro h
  have : subInC1.items = subInC2.items := by rw [h]
  simp [subInC1, subInC2] at this

/-- Claim C5, amended.  Clicking clears the selection iff the clicked and
selected entities are the same object, or both are Category/Subcategory
values (the kinds with a `name` property) whose names are equal — a
name-only comparison that ignores ancestry; for Items the comparison is
object identity only, so clicking a structurally identical but rebuilt Item
leaves the selection unchanged (`= sameObject`). -/
theorem clickClearsSelection_spec :
    (∀ (c c' : Schema.TaxonomyCategory) (b : Bool), c.name = c'.name →
      clickClearsSelection (.cat c) (.cat c') b = true) ∧
    (∀ (s s' : Schema.TaxonomySubcategory) (b : Bool), s.name = s'.name →
      clickClearsSelection (.sub s) (.sub s') b = true) ∧
    (∀ (i i' : Schema.TaxonomyItem) (b : Bool),
      clickClearsSelection (.item i) (.item i') b = b) := by
  refine ⟨?_, ?_, ?_⟩
  · intro c c' b h
    simp [clickClearsSelection, hasName, entityName, h]
  · intro s s' b h
    simp [clickClearsSelection, hasName, entityName, h]
  · intro i i' b
    simp [clickClearsSelection, hasName]

/-- Closed witness for the amended C5. -/
theorem clickClearsSelection_spec_witness :
    clickClearsSelection (.sub subInC1) (.sub subInC2) false = true ∧
      clickClearsSelection (.item itemA) (.item itemA) false = false :=
  ⟨clickClearsSelection_spec.2.1 subInC1 subInC2 false rfl,
    clickClearsSelection_spec.2.2 itemA itemA false⟩

end Chart
